import Mathlib

/-
Verification of the intrusive singly-linked-list utility
(src/src/containers/juce_LinkedListPointer.h) against its specification.

Embedding: nodes live in a finite heap, addressed by natural numbers.  A
node stores its payload value and its single link field (an optional
address; none models the C++ null pointer).  A LinkedListPointer is a
link slot: either a standalone head variable (Slot.head, whose contents
we pass around explicitly) or the nextListItem field embedded in the
node at a given address (Slot.field a).  Every member function of the
header is translated statement by statement; loops become fuel-bounded
recursions whose fuel (heap size + 1) is sufficient for every acyclic
chain of distinct live nodes.  The debug-build jassert macro is modelled
as a check returning CErr.assertFail; dereferencing a null or invalid
pointer is modelled as CErr.nullDeref.  The C++ int of operator[] is
modelled as Int (its decrement-and-test loop never overflows for any
defined-behaviour input).
-/

namespace LinkedList

/-- A linkable object: a payload value plus the single intrusive link
field, as required of the ObjectType template parameter
(juce_LinkedListPointer.h lines 39-47). -/
structure Node (V : Type) where
  value : V
  nextListItem : Option Nat
deriving DecidableEq, Repr

/-- The heap: a finite association of addresses to nodes. -/
abbrev Heap (V : Type) := List (Nat × Node V)

variable {V : Type}

/-- Reading the node stored at address a (first matching entry). -/
def heapFind (h : Heap V) (a : Nat) : Option (Node V) :=
  match h with
  | [] => none
  | e :: t => if e.1 = a then some e.2 else heapFind t a

/-- Overwriting the node stored at address a. -/
def heapSet (h : Heap V) (a : Nat) (m : Node V) : Heap V :=
  match h with
  | [] => []
  | e :: t => (if e.1 = a then (a, m) else e) :: heapSet t a m

/-- Writing a node's nextListItem field (no-op on an absent address;
never reached from a live chain). -/
def setNext (h : Heap V) (a : Nat) (q : Option Nat) : Heap V :=
  match heapFind h a with
  | none => h
  | some n => heapSet h a { n with nextListItem := q }

/-- An address unused by the heap, for modelling the allocation
performed by addCopyOfList. -/
def freshAddr (h : Heap V) : Nat :=
  (h.map Prod.fst).foldr max 0 + 1

/-- Failure modes of the embedded code: a jassert whose condition is
false (fatal in debug builds), and a dereference of a null or invalid
pointer. -/
inductive CErr
  | assertFail
  | nullDeref
deriving DecidableEq, Repr

/-- The debug-build jassert macro. -/
def jassert (b : Bool) : Except CErr Unit :=
  if b then Except.ok () else Except.error CErr.assertFail

/-- A link slot that a LinkedListPointer may designate: the distinguished
head variable, or the nextListItem field of the node at an address. -/
inductive Slot
  | head
  | field (a : Nat)
deriving DecidableEq, Repr

/-- Reading a slot's contents; p is the current contents of the head
variable. -/
def slotGet (h : Heap V) (p : Option Nat) : Slot → Option Nat
  | Slot.head => p
  | Slot.field a =>
    match heapFind h a with
    | some n => n.nextListItem
    | none => none

/-- Writing q into a slot: returns the updated heap and updated head
variable contents. -/
def slotSet (h : Heap V) (p : Option Nat) (s : Slot) (q : Option Nat) :
    Heap V × Option Nat :=
  match s with
  | Slot.head => (h, q)
  | Slot.field a => (setNext h a q, p)

/-- LinkedListPointer::get (lines 89-92): returns the item the handle
points to. -/
def get (item : Option Nat) : Option Nat := item

/-- The loop of LinkedListPointer::getLast (lines 101-109): walk until
the referenced slot is empty and return that slot. -/
def getLastFuel (h : Heap V) : Nat → Slot → Option Nat → Slot
  | 0, s, _ => s
  | _ + 1, s, none => s
  | fuel + 1, _, some a =>
    match heapFind h a with
    | some n => getLastFuel h fuel (Slot.field a) n.nextListItem
    | none => Slot.field a

/-- LinkedListPointer::getLast (lines 101-109). -/
def getLast (h : Heap V) (p : Option Nat) : Slot :=
  getLastFuel h (h.length + 1) Slot.head p

/-- The counting loop of LinkedListPointer::size (lines 115-123). -/
def sizeGo (h : Heap V) : Nat → Option Nat → Nat
  | _, none => 0
  | 0, some _ => 0
  | fuel + 1, some a =>
    match heapFind h a with
    | some n => sizeGo h fuel n.nextListItem + 1
    | none => 1

/-- LinkedListPointer::size (lines 115-123). -/
def size (h : Heap V) (p : Option Nat) : Nat :=
  sizeGo h (h.length + 1) p

/-- The walking loop of LinkedListPointer::operator[] (lines 129-137):
the fuel argument carries how many further decrements of index can
still satisfy the test of the loop condition. -/
def opIndexGo (h : Heap V) : Nat → Slot → Option Nat → Slot
  | 0, s, _ => s
  | _ + 1, s, none => s
  | n + 1, s, some a =>
    match heapFind h a with
    | some nd => opIndexGo h n (Slot.field a) nd.nextListItem
    | none => s

/-- LinkedListPointer::operator[] (lines 129-137).  The loop condition
decrements index first, so the loop body runs min(index, chain length)
times and never runs for index at most 0. -/
def opIndex (h : Heap V) (s : Slot) (p : Option Nat) (index : Int) : Slot :=
  opIndexGo h index.toNat s p

/-- Two's-complement wrapping of an integer into the signed 32-bit
range [-2147483648, 2147483648).  Signed overflow is undefined behaviour
in C++; this is the wrap that real two's-complement targets exhibit when
the pre-decrement of operator[]'s loop counter overflows at the most
negative int. -/
def wrap32 (z : Int) : Int :=
  (z + 2147483648) % 4294967296 - 2147483648

/-- The walking loop of LinkedListPointer::operator[] (lines 129-137)
with the C++ int index modelled at machine width: every test of the loop
condition first pre-decrements the index with 32-bit wraparound, exits
when the decremented index is negative or the slot is empty, and
otherwise advances one node.  The fuel (heap size + 1) bounds the
traversal exactly as for the other loops. -/
def opIndex32Go (h : Heap V) : Nat → Slot → Option Nat → Int → Slot
  | 0, s, _, _ => s
  | fuel + 1, s, p, index =>
    if 0 ≤ wrap32 (index - 1) then
      match p with
      | none => s
      | some a =>
        match heapFind h a with
        | some nd =>
          opIndex32Go h fuel (Slot.field a) nd.nextListItem
            (wrap32 (index - 1))
        | none => s
    else s

/-- LinkedListPointer::operator[] (lines 129-137) over a wrapping 32-bit
int index. -/
def opIndex32 (h : Heap V) (s : Slot) (p : Option Nat) (index : Int) :
    Slot :=
  opIndex32Go h (h.length + 1) s p index

/-- The scanning loop of LinkedListPointer::contains (lines 154-161). -/
def containsGo (h : Heap V) (target : Nat) : Nat → Option Nat → Bool
  | _, none => false
  | 0, some _ => false
  | fuel + 1, some a =>
    a = target ||
      (match heapFind h a with
       | some n => containsGo h target fuel n.nextListItem
       | none => false)

/-- LinkedListPointer::contains (lines 154-161): identity scan. -/
def contains (h : Heap V) (p : Option Nat) (target : Nat) : Bool :=
  containsGo h target (h.length + 1) p

/-- LinkedListPointer::insertNext (lines 167-173), acting on a handle
with contents item; returns the updated heap and the new slot contents.
The two jasserts of the source are the two checks. -/
def insertNext (h : Heap V) (item : Option Nat) (newItem : Option Nat) :
    Except CErr (Heap V × Option Nat) := do
  jassert newItem.isSome
  match newItem with
  | none => Except.error CErr.assertFail
  | some x =>
    match heapFind h x with
    | none => Except.error CErr.nullDeref
    | some n => do
      jassert (n.nextListItem = none)
      let h1 := heapSet h x { n with nextListItem := item }
      Except.ok (h1, some x)

/-- insertNext performed through an arbitrary slot. -/
def insertNextAtSlot (h : Heap V) (p : Option Nat) (s : Slot)
    (newItem : Option Nat) : Except CErr (Heap V × Option Nat) :=
  match insertNext h (slotGet h p s) newItem with
  | Except.error e => Except.error e
  | Except.ok (h1, q1) => Except.ok (slotSet h1 p s q1)

/-- LinkedListPointer::replaceNext (lines 196-206).  The source asserts
only on newItem; when the handle itself is empty it goes on to read
oldItem->nextListItem through the null oldItem pointer. -/
def replaceNext (h : Heap V) (item : Option Nat) (newItem : Option Nat) :
    Except CErr (Heap V × Option Nat × Option Nat) := do
  jassert newItem.isSome
  match newItem with
  | none => Except.error CErr.assertFail
  | some x =>
    match heapFind h x with
    | none => Except.error CErr.nullDeref
    | some xn => do
      jassert (xn.nextListItem = none)
      match item with
      | none => Except.error CErr.nullDeref
      | some old =>
        match heapFind h old with
        | none => Except.error CErr.nullDeref
        | some oldn =>
          let h1 := setNext h x oldn.nextListItem
          let h2 := setNext h1 old none
          Except.ok (h2, some x, some old)

/-- LinkedListPointer::append (lines 214-217): getLast().item = newItem.
No assertion and no failure mode. -/
def append (h : Heap V) (p : Option Nat) (newItem : Nat) :
    Heap V × Option Nat :=
  slotSet h p (getLast h p) (some newItem)

/-- LinkedListPointer::removeNext (lines 238-247), translated in source
statement order: oldItem->nextListItem is cleared first, and only then
is item re-read from that same (now cleared) field.  Returns the new
slot contents and the removed node's address. -/
def removeNext (h : Heap V) (item : Option Nat) :
    Except CErr (Heap V × Option Nat × Option Nat) :=
  match item with
  | none => Except.ok (h, none, none)
  | some oldA =>
    match heapFind h oldA with
    | none => Except.error CErr.nullDeref
    | some n =>
      let h1 := heapSet h oldA { n with nextListItem := none }
      match heapFind h1 oldA with
      | none => Except.error CErr.nullDeref
      | some n1 => Except.ok (h1, n1.nextListItem, some oldA)

/-- The scanning loop of LinkedListPointer::findPointerTo
(lines 277-290): returns the slot whose contents equal the target. -/
def findPtrGo (h : Heap V) (target : Nat) :
    Nat → Slot → Option Nat → Option Slot
  | _, _, none => none
  | 0, _, some _ => none
  | fuel + 1, s, some a =>
    if a = target then some s
    else
      match heapFind h a with
      | none => none
      | some n => findPtrGo h target fuel (Slot.field a) n.nextListItem

/-- LinkedListPointer::findPointerTo (lines 277-290). -/
def findPointerTo (h : Heap V) (p : Option Nat) (target : Nat) :
    Option Slot :=
  findPtrGo h target (h.length + 1) Slot.head p

/-- LinkedListPointer::remove (lines 252-258): findPointerTo, then
removeNext through the found slot; no-op when the node is absent. -/
def remove (h : Heap V) (p : Option Nat) (target : Nat) :
    Except CErr (Heap V × Option Nat) :=
  match findPointerTo h p target with
  | none => Except.ok (h, p)
  | some s =>
    match removeNext h (slotGet h p s) with
    | Except.error e => Except.error e
    | Except.ok (h1, q1, _) => Except.ok (slotSet h1 p s q1)

/-- The loop of LinkedListPointer::addCopyOfList (lines 223-232):
insertPoint starts at the handle itself; each source node is copied
(modelled as allocating a fresh address carrying the same value and an
empty link, the behaviour required of ObjectType's copy constructor for
the insertNext assertion to hold), inserted at insertPoint, after which
insertPoint advances to the copy's own link field. -/
def addCopyOfListGo : Nat → Heap V → Option Nat → Slot → Option Nat →
    Except CErr (Heap V × Option Nat)
  | _, h, p, _, none => Except.ok (h, p)
  | 0, h, p, _, some _ => Except.ok (h, p)
  | fuel + 1, h, p, s, some a =>
    match heapFind h a with
    | none => Except.error CErr.nullDeref
    | some n =>
      let c := freshAddr h
      let h0 := (c, Node.mk n.value none) :: h
      match insertNextAtSlot h0 p s (some c) with
      | Except.error e => Except.error e
      | Except.ok (h1, p1) =>
        match slotGet h1 p1 s with
        | none => Except.error CErr.nullDeref
        | some ip =>
          match heapFind h1 a with
          | none => Except.error CErr.nullDeref
          | some n' =>
            addCopyOfListGo fuel h1 p1 (Slot.field ip) n'.nextListItem

/-- LinkedListPointer::addCopyOfList (lines 223-232). -/
def addCopyOfList (h : Heap V) (p : Option Nat) (src : Option Nat) :
    Except CErr (Heap V × Option Nat) :=
  addCopyOfListGo (h.length + 1) h p Slot.head src

/-- Appender construction (lines 317-322): jassert that the slot used to
build the appender is currently empty; the cursor is that slot. -/
def appenderInit (h : Heap V) (p : Option Nat) (s : Slot) :
    Except CErr Slot :=
  match jassert (slotGet h p s).isNone with
  | Except.error e => Except.error e
  | Except.ok _ => Except.ok s

/-- Appender::append (lines 325-329): write the new item into the cached
slot, then advance the cursor to the new item's own link field.  No
assertion and no failure mode. -/
def appenderAppend (h : Heap V) (p : Option Nat) (cur : Slot)
    (newItem : Nat) : (Heap V × Option Nat) × Slot :=
  (slotSet h p cur (some newItem), Slot.field newItem)

/-- Repeated Appender::append over a list of new items. -/
def appenderAppendAll (h : Heap V) (p : Option Nat) (cur : Slot) :
    List Nat → (Heap V × Option Nat) × Slot
  | [] => ((h, p), cur)
  | x :: xs =>
    let r := appenderAppend h p cur x
    appenderAppendAll r.1.1 r.1.2 r.2 xs

/-- Running an operation through the sub-handle designated by a slot:
the operation sees the slot's contents, and its slot update is written
back through that slot. -/
def runAtSlot (h : Heap V) (p : Option Nat) (s : Slot)
    (f : Heap V → Option Nat → Heap V × Option Nat) :
    Heap V × Option Nat :=
  let r := f h (slotGet h p s)
  slotSet r.1 p s r.2

/-- Repeated LinkedListPointer::append calls made on one and the same
starting handle (the slot s). -/
def appendAll (h : Heap V) (p : Option Nat) (s : Slot) :
    List Nat → Heap V × Option Nat
  | [] => (h, p)
  | x :: xs =>
    let r := runAtSlot h p s (fun hh q => append hh q x)
    appendAll r.1 r.2 s xs

/-- The address of the last node of a nonempty chain listed as head a
followed by rest l. -/
def lastAddr (a : Nat) : List Nat → Nat
  | [] => a
  | b :: l => lastAddr b l

/-- The terminal (empty) slot of a chain whose nodes are listed in l,
starting from base slot s. -/
def tailSlot (s : Slot) : List Nat → Slot
  | [] => s
  | a :: l => tailSlot (Slot.field a) l

/-- The link slot at 0-based position k of the chain listed in l,
starting from base slot s (clamped to the terminal slot). -/
def slotAt (s : Slot) : List Nat → Nat → Slot
  | _, 0 => s
  | [], _ + 1 => s
  | a :: l, k + 1 => slotAt (Slot.field a) l k

/-- The pointer p designates, in heap h, exactly the acyclic chain whose
node addresses are listed in l: each listed node is live, links to its
successor, and no address repeats. -/
inductive isChain (h : Heap V) : Option Nat → List Nat → Prop
  | nil : isChain h none []
  | cons {a : Nat} {n : Node V} {p : Option Nat} {l : List Nat} :
      heapFind h a = some n → n.nextListItem = p → a ∉ l →
      isChain h p l → isChain h (some a) (a :: l)

/-- Executable check deciding isChain on concrete data. -/
def isChainB (h : Heap V) : Option Nat → List Nat → Bool
  | none, [] => true
  | none, _ :: _ => false
  | some _, [] => false
  | some a, b :: l =>
    a = b && !(List.contains l a) &&
      (match heapFind h a with
       | some n => isChainB h n.nextListItem l
       | none => false)

/-! Heap lemmas. -/

lemma heapFind_heapSet_ne (h : Heap V) (a b : Nat) (m : Node V)
    (hab : a ≠ b) : heapFind (heapSet h b m) a = heapFind h a := by
  induction h with
  | nil => rfl
  | cons e t ih =>
    by_cases hb : e.1 = b
    · simp [heapSet, heapFind, hb, Ne.symm hab, ih]
    · simp [heapSet, heapFind, hb, ih]

lemma heapFind_heapSet_self (h : Heap V) (a : Nat) (m : Node V)
    (hx : (heapFind h a).isSome) :
    heapFind (heapSet h a m) a = some m := by
  induction h with
  | nil => simp [heapFind] at hx
  | cons e t ih =>
    by_cases hb : e.1 = a
    · simp [heapSet, heapFind, hb]
    · simp [heapFind, hb] at hx
      simp [heapSet, heapFind, hb, ih hx]

lemma heapFind_setNext_ne (h : Heap V) (a b : Nat) (q : Option Nat)
    (hab : a ≠ b) : heapFind (setNext h b q) a = heapFind h a := by
  unfold setNext
  cases hfb : heapFind h b with
  | none => rfl
  | some n => exact heapFind_heapSet_ne h a b _ hab

lemma heapFind_setNext_self (h : Heap V) (a : Nat) (q : Option Nat)
    (n : Node V) (hf : heapFind h a = some n) :
    heapFind (setNext h a q) a = some (Node.mk n.value q) := by
  unfold setNext
  rw [hf]
  exact heapFind_heapSet_self h a _ (by simp [hf])

lemma heapSet_keys (h : Heap V) (a : Nat) (m : Node V) :
    (heapSet h a m).map Prod.fst = h.map Prod.fst := by
  induction h with
  | nil => rfl
  | cons e t ih =>
    by_cases hb : e.1 = a
    · simp [heapSet, hb, ih]
    · simp [heapSet, hb, ih]

lemma setNext_keys (h : Heap V) (a : Nat) (q : Option Nat) :
    (setNext h a q).map Prod.fst = h.map Prod.fst := by
  unfold setNext
  cases heapFind h a with
  | none => rfl
  | some n => exact heapSet_keys h a _

lemma setNext_length (h : Heap V) (a : Nat) (q : Option Nat) :
    (setNext h a q).length = h.length := by
  have := congrArg List.length (setNext_keys h a q)
  simpa using this

lemma heapFind_mem_keys (h : Heap V) (a : Nat) (n : Node V)
    (hf : heapFind h a = some n) : a ∈ h.map Prod.fst := by
  induction h with
  | nil => simp [heapFind] at hf
  | cons e t ih =>
    by_cases hb : e.1 = a
    · simp [hb]
    · simp [heapFind, hb] at hf
      simp [ih hf]

lemma heapSet_absent (h : Heap V) (a : Nat) (m : Node V)
    (ha : a ∉ h.map Prod.fst) : heapSet h a m = h := by
  induction h with
  | nil => rfl
  | cons e t ih =>
    simp only [List.map_cons, List.mem_cons] at ha
    push_neg at ha
    simp [heapSet, Ne.symm ha.1, ih ha.2]

lemma heapSet_noop (h : Heap V) (a : Nat) (n : Node V)
    (hnd : (h.map Prod.fst).Nodup) (hf : heapFind h a = some n) :
    heapSet h a n = h := by
  induction h with
  | nil => rfl
  | cons e t ih =>
    simp only [List.map_cons, List.nodup_cons] at hnd
    by_cases hb : e.1 = a
    · simp [heapFind, hb] at hf
      have he : (a, n) = e := by
        cases e with
        | mk e1 e2 => simp at hb hf; simp [hb, hf]
      have ht : heapSet t a n = t := by
        apply heapSet_absent
        rw [← hb] at *
        exact hnd.1
      simp [heapSet, hb, he, ht]
    · simp [heapFind, hb] at hf
      simp [heapSet, hb, ih hnd.2 hf]

lemma setNext_noop (h : Heap V) (a : Nat) (q : Option Nat) (n : Node V)
    (hnd : (h.map Prod.fst).Nodup) (hf : heapFind h a = some n)
    (hq : n.nextListItem = q) : setNext h a q = h := by
  unfold setNext
  rw [hf]
  have hn : ({ n with nextListItem := q } : Node V) = n := by
    cases n; simp_all
  simp only [hn]
  exact heapSet_noop h a n hnd hf

/-! Chain lemmas. -/

lemma isChain_nodup {h : Heap V} {p : Option Nat} {l : List Nat}
    (hc : isChain h p l) : l.Nodup := by
  induction hc with
  | nil => exact List.nodup_nil
  | cons hf hn ha _ ih => exact List.nodup_cons.mpr ⟨ha, ih⟩

lemma isChain_mem {h : Heap V} {p : Option Nat} {l : List Nat}
    (hc : isChain h p l) {a : Nat} (ha : a ∈ l) :
    ∃ n, heapFind h a = some n := by
  induction hc with
  | nil => simp at ha
  | cons hf hn _ _ ih =>
    rcases List.mem_cons.mp ha with h1 | h2
    · exact ⟨_, h1 ▸ hf⟩
    · exact ih h2

lemma isChain_length_le {h : Heap V} {p : Option Nat} {l : List Nat}
    (hc : isChain h p l) : l.length ≤ h.length := by
  have hnd : l.Nodup := isChain_nodup hc
  have hsub : l.toFinset ⊆ (h.map Prod.fst).toFinset := by
    intro a ha
    rw [List.mem_toFinset] at ha
    obtain ⟨n, hn⟩ := isChain_mem hc ha
    rw [List.mem_toFinset]
    exact heapFind_mem_keys h a n hn
  calc l.length = l.toFinset.card := (List.toFinset_card_of_nodup hnd).symm
    _ ≤ (h.map Prod.fst).toFinset.card := Finset.card_le_card hsub
    _ ≤ (h.map Prod.fst).length := (h.map Prod.fst).toFinset_card_le
    _ = h.length := List.length_map h Prod.fst

lemma isChain_congr {h h' : Heap V} {p : Option Nat} {l : List Nat}
    (hc : isChain h p l)
    (hfr : ∀ a ∈ l, heapFind h' a = heapFind h a) : isChain h' p l := by
  induction hc with
  | nil => exact isChain.nil
  | cons hf hn ha hcl ih =>
    refine isChain.cons ?_ hn ha (ih ?_)
    · rw [hfr _ (List.mem_cons_self _ _)]; exact hf
    · intro b hb; exact hfr b (List.mem_cons_of_mem _ hb)

lemma isChain_nil_inv {h : Heap V} {p : Option Nat}
    (hc : isChain h p []) : p = none := by
  cases hc; rfl

lemma isChain_cons_head {h : Heap V} {p : Option Nat} {b : Nat}
    {l : List Nat} (hc : isChain h p (b :: l)) : p = some b := by
  cases hc; rfl

lemma isChain_of_isChainB {h : Heap V} {p : Option Nat} {l : List Nat}
    (hb : isChainB h p l = true) : isChain h p l := by
  induction l generalizing p with
  | nil =>
    cases p with
    | none => exact isChain.nil
    | some a => simp [isChainB] at hb
  | cons b t ih =>
    cases p with
    | none => simp [isChainB] at hb
    | some a =>
      simp only [isChainB, Bool.and_eq_true, decide_eq_true_eq,
        Bool.not_eq_true'] at hb
      obtain ⟨⟨hab, hmem⟩, hrest⟩ := hb
      subst hab
      cases hfa : heapFind h a with
      | none => rw [hfa] at hrest; simp at hrest
      | some n =>
        rw [hfa] at hrest
        refine isChain.cons hfa rfl ?_ (ih hrest)
        intro hcon
        simp [List.contains, List.elem_eq_mem, hcon] at hmem

lemma lastAddr_mem (a : Nat) (l : List Nat) : lastAddr a l ∈ a :: l := by
  induction l generalizing a with
  | nil => simp [lastAddr]
  | cons b t ih =>
    rcases List.mem_cons.mp (ih b) with h1 | h2
    · simp [lastAddr, h1]
    · simp [lastAddr, h2]

lemma lastAddr_append (a : Nat) (l : List Nat) (b : Nat) (m : List Nat) :
    lastAddr a (l ++ b :: m) = lastAddr b m := by
  induction l generalizing a with
  | nil => rfl
  | cons c t ih => simpa [lastAddr] using ih c

lemma lastAddr_concat (a : Nat) (l : List Nat) (x : Nat) :
    lastAddr a (l ++ [x]) = x := lastAddr_append a l x []

lemma tailSlot_eq_field (s : Slot) (a : Nat) (l : List Nat) :
    tailSlot s (a :: l) = Slot.field (lastAddr a l) := by
  induction l generalizing a s with
  | nil => rfl
  | cons b t ih => simpa [tailSlot, lastAddr] using ih (Slot.field a) b

lemma tailSlot_concat (s : Slot) (l : List Nat) (x : Nat) :
    tailSlot s (l ++ [x]) = Slot.field x := by
  cases l with
  | nil => rfl
  | cons a t =>
    rw [List.cons_append, tailSlot_eq_field]
    rw [lastAddr_concat]

lemma chain_split {h : Heap V} {p : Option Nat} {a : Nat}
    {l1 l2 : List Nat} (hc : isChain h p (a :: l1 ++ l2)) :
    ∃ n, heapFind h (lastAddr a l1) = some n ∧
      isChain h n.nextListItem l2 := by
  induction l1 generalizing a p with
  | nil =>
    cases hc with
    | cons hf hn _ hcl => exact ⟨_, hf, hn ▸ hcl⟩
  | cons c t ih =>
    cases hc with
    | cons hf hn _ hcl =>
      have : isChain h (some c) (c :: t ++ l2) := by
        rw [← isChain_cons_head hcl, ← hn]; rw [hn]; exact hcl
      exact ih this

lemma slotGet_tail {h : Heap V} {p : Option Nat} {l : List Nat}
    (hc : isChain h p l) : slotGet h p (tailSlot Slot.head l) = none := by
  cases l with
  | nil => exact isChain_nil_inv hc
  | cons a t =>
    rw [tailSlot_eq_field]
    have hc' : isChain h p (a :: t ++ []) := by simpa using hc
    obtain ⟨n, hf, hnil⟩ := chain_split hc'
    simp [slotGet, hf, isChain_nil_inv hnil]

lemma isChain_setNextTail {h : Heap V} {a : Nat} {l' : List Nat}
    {q : Option Nat} {m : List Nat}
    (hc : isChain h (some a) (a :: l')) (hm : isChain h q m)
    (hdisj : ∀ b ∈ a :: l', b ∉ m) :
    isChain (setNext h (lastAddr a l') q) (some a) (a :: l' ++ m) := by
  induction l' generalizing a with
  | nil =>
    cases hc with
    | cons hf hn _ _ =>
      have ham : a ∉ m := hdisj a (List.mem_cons_self _ _)
      refine isChain.cons (n := Node.mk _ q)
        (heapFind_setNext_self h a q _ hf) rfl ?_ ?_
      · simpa using ham
      · refine isChain_congr hm ?_
        intro b hb
        exact heapFind_setNext_ne h b a q (fun hba => ham (hba ▸ hb))
  | cons c t ih =>
    cases hc with
    | cons hf hn ha hcl =>
      have hpc : some c = some c := rfl
      have hcl' : isChain h (some c) (c :: t) := by
        rw [← isChain_cons_head hcl]; exact hcl
      have hlast_mem : lastAddr c t ∈ c :: t := lastAddr_mem c t
      have hane : a ≠ lastAddr c t := by
        intro hcon; exact ha (hcon ▸ hlast_mem)
      have ihr := ih hcl' (fun b hb => hdisj b (List.mem_cons_of_mem _ hb))
      rw [show lastAddr a (c :: t) = lastAddr c t from rfl]
      refine isChain.cons (n := _)
        ((heapFind_setNext_ne h a (lastAddr c t) q hane).trans hf) ?_ ?_ ihr
      · rw [hn, isChain_cons_head hcl]
      · intro hcon
        rcases List.mem_append.mp hcon with h1 | h2
        · exact ha h1
        · exact hdisj a (List.mem_cons_self _ _) h2

lemma isChain_appendChain {h : Heap V} {p : Option Nat} {l : List Nat}
    {q : Option Nat} {m : List Nat}
    (hc : isChain h p l) (hm : isChain h q m)
    (hdisj : ∀ b ∈ l, b ∉ m) :
    isChain (slotSet h p (tailSlot Slot.head l) q).1
      (slotSet h p (tailSlot Slot.head l) q).2 (l ++ m) := by
  cases l with
  | nil =>
    simpa [tailSlot, slotSet] using hm
  | cons a t =>
    rw [tailSlot_eq_field]
    have hp : p = some a := isChain_cons_head hc
    subst hp
    simpa [slotSet] using isChain_setNextTail hc hm hdisj

/-! Correctness of the fuel-bounded loops on valid chains. -/

lemma getLastFuel_chain {h : Heap V} {p : Option Nat} {l : List Nat}
    (hc : isChain h p l) :
    ∀ fuel s, l.length + 1 ≤ fuel → getLastFuel h fuel s p = tailSlot s l := by
  induction hc with
  | nil =>
    intro fuel s hf
    cases fuel with
    | zero => omega
    | succ f => rfl
  | cons hfa hn _ _ ih =>
    intro fuel s hf
    cases fuel with
    | zero => omega
    | succ f =>
      simp only [getLastFuel, hfa, hn]
      refine ih f _ ?_
      simp only [List.length_cons] at hf
      omega

lemma getLast_chain {h : Heap V} {p : Option Nat} {l : List Nat}
    (hc : isChain h p l) : getLast h p = tailSlot Slot.head l := by
  have hlen := isChain_length_le hc
  exact getLastFuel_chain hc (h.length + 1) Slot.head (by omega)

lemma sizeGo_chain {h : Heap V} {p : Option Nat} {l : List Nat}
    (hc : isChain h p l) :
    ∀ fuel, l.length ≤ fuel → sizeGo h fuel p = l.length := by
  induction hc with
  | nil => intro fuel _; cases fuel <;> rfl
  | cons hfa hn _ _ ih =>
    intro fuel hf
    cases fuel with
    | zero => simp at hf
    | succ f =>
      simp only [sizeGo, hfa, hn, List.length_cons]
      rw [ih f (by simp only [List.length_cons] at hf; omega)]

lemma size_chain {h : Heap V} {p : Option Nat} {l : List Nat}
    (hc : isChain h p l) : size h p = l.length := by
  have hlen := isChain_length_le hc
  exact sizeGo_chain hc (h.length + 1) (by omega)

lemma opIndexGo_chain {h : Heap V} {p : Option Nat} {l : List Nat}
    (hc : isChain h p l) :
    ∀ n s, opIndexGo h n s p = slotAt s l (min n l.length) := by
  induction hc with
  | nil =>
    intro n s
    cases n with
    | zero => rfl
    | succ k => rfl
  | cons hfa hn _ _ ih =>
    intro n s
    cases n with
    | zero => rfl
    | succ k =>
      simp only [opIndexGo, hfa, hn, List.length_cons,
        Nat.succ_min_succ]
      exact ih k (Slot.field _)

lemma slotAt_length (s : Slot) (l : List Nat) :
    slotAt s l l.length = tailSlot s l := by
  induction l generalizing s with
  | nil => rfl
  | cons a t ih => simpa [slotAt, tailSlot] using ih (Slot.field a)

lemma slotSet_keys (h : Heap V) (p : Option Nat) (s : Slot)
    (q : Option Nat) :
    (slotSet h p s q).1.map Prod.fst = h.map Prod.fst := by
  cases s with
  | head => rfl
  | field a => simpa [slotSet] using setNext_keys h a q

/-! Appender machinery. -/

lemma slotSet_tail_frame (h : Heap V) (p q : Option Nat) (L : List Nat)
    (y : Nat) (hy : y ∉ L) :
    heapFind (slotSet h p (tailSlot Slot.head L) q).1 y = heapFind h y := by
  cases L with
  | nil => rfl
  | cons a t =>
    rw [tailSlot_eq_field]
    have hne : y ≠ lastAddr a t := by
      intro hcon; exact hy (hcon ▸ lastAddr_mem a t)
    simpa [slotSet] using heapFind_setNext_ne h y (lastAddr a t) q hne

lemma seqStep {h : Heap V} {p : Option Nat} (l₀ don : List Nat) (x : Nat)
    (hc : isChain h p (l₀ ++ don)) (hnd : (h.map Prod.fst).Nodup) :
    runAtSlot h p (tailSlot Slot.head l₀) (fun hh q => append hh q x)
      = slotSet h p (tailSlot Slot.head (l₀ ++ don)) (some x) := by
  cases don with
  | nil =>
    have hq : slotGet h p (tailSlot Slot.head l₀) = none :=
      slotGet_tail (by simpa using hc)
    simp only [runAtSlot, hq, append, getLast, getLastFuel, slotSet,
      List.append_nil]
  | cons d ds =>
    cases l₀ with
    | nil =>
      have hchain : isChain h p (d :: ds) := by simpa using hc
      have hgl : getLast h p = Slot.field (lastAddr d ds) := by
        rw [getLast_chain hchain, tailSlot_eq_field]
      rw [List.nil_append, tailSlot_eq_field]
      simp only [runAtSlot, tailSlot, slotGet, append, hgl, slotSet]
    | cons a t =>
      have hc' : isChain h p (a :: (t ++ d :: ds)) := by
        simpa using hc
      obtain ⟨n, hfind, hchain⟩ := chain_split hc'
      have hq : slotGet h p (Slot.field (lastAddr a t)) = n.nextListItem := by
        simp [slotGet, hfind]
      have hgl : getLast h n.nextListItem = Slot.field (lastAddr d ds) := by
        rw [getLast_chain hchain, tailSlot_eq_field]
      have hnodup : ((a :: t) ++ d :: ds).Nodup := isChain_nodup hc
      have hdisj : List.Disjoint (a :: t) (d :: ds) :=
        List.disjoint_of_nodup_append hnodup
      have hne : lastAddr a t ≠ lastAddr d ds := by
        intro hcon
        exact hdisj (lastAddr_mem a t) (hcon ▸ lastAddr_mem d ds)
      have hfind' : heapFind (setNext h (lastAddr d ds) (some x))
          (lastAddr a t) = some n := by
        rw [heapFind_setNext_ne _ _ _ _ hne]; exact hfind
      have hnd' : ((setNext h (lastAddr d ds) (some x)).map Prod.fst).Nodup := by
        rw [setNext_keys]; exact hnd
      have hnoop : setNext (setNext h (lastAddr d ds) (some x))
          (lastAddr a t) n.nextListItem
          = setNext h (lastAddr d ds) (some x) :=
        setNext_noop _ _ _ n hnd' hfind' rfl
      rw [tailSlot_eq_field, show ((a :: t) ++ d :: ds) = a :: (t ++ d :: ds)
        from rfl, tailSlot_eq_field, lastAddr_append]
      simp only [runAtSlot, hq, append, hgl, slotSet, hnoop]

lemma appenderLoop (ks : List Nat) :
    ∀ (don : List Nat) (h : Heap V) (p : Option Nat) (l₀ : List Nat),
    isChain h p (l₀ ++ don) → (h.map Prod.fst).Nodup → ks.Nodup →
    (∀ x ∈ ks, x ∉ l₀ ++ don ∧ isChain h (some x) [x]) →
    (appenderAppendAll h p (tailSlot Slot.head (l₀ ++ don)) ks).1
        = appendAll h p (tailSlot Slot.head l₀) ks
    ∧ isChain (appenderAppendAll h p (tailSlot Slot.head (l₀ ++ don)) ks).1.1
        (appenderAppendAll h p (tailSlot Slot.head (l₀ ++ don)) ks).1.2
        ((l₀ ++ don) ++ ks)
    ∧ (appenderAppendAll h p (tailSlot Slot.head (l₀ ++ don)) ks).2
        = tailSlot Slot.head ((l₀ ++ don) ++ ks) := by
  induction ks with
  | nil =>
    intro don h p l₀ hc hnd _ _
    refine ⟨rfl, by simpa using hc, by simp [appenderAppendAll]⟩
  | cons x ks ih =>
    intro don h p l₀ hc hnd hks hfresh
    have hx := hfresh x (List.mem_cons_self _ _)
    have hdisj : ∀ b ∈ l₀ ++ don, b ∉ [x] := by
      intro b hb hbx
      rcases List.mem_singleton.mp hbx with rfl
      exact hx.1 hb
    have hstep := isChain_appendChain hc hx.2 hdisj
    have hseq := seqStep l₀ don x hc hnd
    have hndks := List.nodup_cons.mp hks
    have hfresh' : ∀ y ∈ ks, y ∉ l₀ ++ (don ++ [x]) ∧
        isChain (slotSet h p (tailSlot Slot.head (l₀ ++ don)) (some x)).1
          (some y) [y] := by
      intro y hy
      have hyx : y ≠ x := by
        intro hcon; exact hndks.1 (hcon ▸ hy)
      have hyl : y ∉ l₀ ++ don := (hfresh y (List.mem_cons_of_mem _ hy)).1
      constructor
      · intro hcon
        rw [← List.append_assoc] at hcon
        rcases List.mem_append.mp hcon with h1 | h2
        · exact hyl h1
        · exact hyx (List.mem_singleton.mp h2)
      · refine isChain_congr (hfresh y (List.mem_cons_of_mem _ hy)).2 ?_
        intro b hb
        rcases List.mem_singleton.mp hb with rfl
        exact slotSet_tail_frame h p (some x) (l₀ ++ don) b hyl
    have hchain' : isChain
        (slotSet h p (tailSlot Slot.head (l₀ ++ don)) (some x)).1
        (slotSet h p (tailSlot Slot.head (l₀ ++ don)) (some x)).2
        (l₀ ++ (don ++ [x])) := by
      rw [← List.append_assoc]; exact hstep
    have hnd' : ((slotSet h p (tailSlot Slot.head (l₀ ++ don))
        (some x)).1.map Prod.fst).Nodup := by
      rw [slotSet_keys]; exact hnd
    have ihr := ih (don ++ [x])
      (slotSet h p (tailSlot Slot.head (l₀ ++ don)) (some x)).1
      (slotSet h p (tailSlot Slot.head (l₀ ++ don)) (some x)).2
      l₀ hchain' hnd' hndks.2 hfresh'
    have hcur : tailSlot Slot.head (l₀ ++ (don ++ [x])) = Slot.field x := by
      rw [← List.append_assoc]; exact tailSlot_concat _ _ x
    rw [hcur] at ihr
    have hunfA : appenderAppendAll h p (tailSlot Slot.head (l₀ ++ don))
        (x :: ks)
        = appenderAppendAll
            (slotSet h p (tailSlot Slot.head (l₀ ++ don)) (some x)).1
            (slotSet h p (tailSlot Slot.head (l₀ ++ don)) (some x)).2
            (Slot.field x) ks := rfl
    have hunfS : appendAll h p (tailSlot Slot.head l₀) (x :: ks)
        = appendAll
            (runAtSlot h p (tailSlot Slot.head l₀) (fun hh q => append hh q x)).1
            (runAtSlot h p (tailSlot Slot.head l₀) (fun hh q => append hh q x)).2
            (tailSlot Slot.head l₀) ks := rfl
    rw [hunfA, hunfS, hseq]
    have hassoc : (l₀ ++ (don ++ [x])) ++ ks = (l₀ ++ don) ++ (x :: ks) := by
      simp
    rw [hassoc] at ihr
    exact ihr

lemma opIndex32Go_neg (h : Heap V) (fuel : Nat) (s : Slot)
    (p : Option Nat) (index : Int)
    (hneg : ¬ 0 ≤ wrap32 (index - 1)) :
    opIndex32Go h (fuel + 1) s p index = s := by
  simp only [opIndex32Go]
  exact if_neg hneg

/-! Claim theorems. -/

/-- C1: evaluating removeNext on the two-node chain A (address 1) -> B
(address 2).  The source clears A's own link field first and only then
re-reads it into the handle, so the handle comes back empty — losing B —
instead of being re-linked to B as claimed; the removed node A is
returned with its link cleared. -/
theorem C1_removeNext_loses_tail :
    removeNext [(1, Node.mk (10 : Nat) (some 2)), (2, Node.mk 20 none)]
        (some 1)
      = Except.ok ([(1, Node.mk (10 : Nat) none), (2, Node.mk 20 none)],
          none, some 1)
    ∧ removeNext ([(1, Node.mk (10 : Nat) (some 2)),
        (2, Node.mk 20 none)] : Heap Nat) none
      = Except.ok ([(1, Node.mk (10 : Nat) (some 2)),
          (2, Node.mk 20 none)], none, none) :=
  ⟨rfl, rfl⟩

/-- C2: insertNext of node B (address 2, empty link) at the head handle
of the one-node chain A (address 1), immediately followed by removeNext
at the same handle: B itself is returned, as claimed, but the handle
comes back empty instead of referencing A again, so the round trip does
not restore the chain shape. -/
theorem C2_roundTrip_drops_chain :
    insertNext [(1, Node.mk (10 : Nat) none), (2, Node.mk 20 none)]
        (some 1) (some 2)
      = Except.ok ([(1, Node.mk (10 : Nat) none),
          (2, Node.mk 20 (some 1))], some 2)
    ∧ removeNext [(1, Node.mk (10 : Nat) none), (2, Node.mk 20 (some 1))]
        (some 2)
      = Except.ok ([(1, Node.mk (10 : Nat) none), (2, Node.mk 20 none)],
          none, some 2) :=
  ⟨rfl, rfl⟩

/-- C3: remove(B) on the chain [A,B,C] (addresses 1,2,3): findPointerTo
locates the slot in front of B and removeNext runs there, but the
removeNext defect nulls that slot instead of re-linking it to C, so the
resulting chain is [A] rather than the claimed [A,C]; B's own link is
cleared and contains(B) becomes false, as claimed. -/
theorem C3_remove_truncates :
    remove [(1, Node.mk (10 : Nat) (some 2)), (2, Node.mk 20 (some 3)),
        (3, Node.mk 30 none)] (some 1) 2
      = Except.ok ([(1, Node.mk (10 : Nat) none), (2, Node.mk 20 none),
          (3, Node.mk 30 none)], some 1)
    ∧ isChainB [(1, Node.mk (10 : Nat) none), (2, Node.mk 20 none),
        (3, Node.mk 30 none)] (some 1) [1] = true
    ∧ contains [(1, Node.mk (10 : Nat) none), (2, Node.mk 20 none),
        (3, Node.mk 30 none)] (some 1) 2 = false
    ∧ heapFind [(1, Node.mk (10 : Nat) none), (2, Node.mk 20 none),
        (3, Node.mk 30 none)] 2 = some (Node.mk 20 none) :=
  ⟨rfl, rfl, rfl, rfl⟩

/-- C4: addCopyOfList with destination chain [A] (address 1, value 10)
and source chain [B] (address 2, value 20): the copy (fresh address 3,
value 20, distinct identity, empty link) is inserted at the handle's
current position in front of A, so the resulting chain is the copies
followed by the old contents — values [20, 10] — instead of the old
contents followed by the copies that the claim describes. -/
theorem C4_addCopyOfList_prepends :
    addCopyOfList [(1, Node.mk (10 : Nat) none), (2, Node.mk 20 none)]
        (some 1) (some 2)
      = Except.ok ([(3, Node.mk (20 : Nat) (some 1)),
          (1, Node.mk 10 none), (2, Node.mk 20 none)], some 3)
    ∧ isChainB [(3, Node.mk (20 : Nat) (some 1)), (1, Node.mk 10 none),
        (2, Node.mk 20 none)] (some 3) [3, 1] = true :=
  ⟨rfl, rfl⟩

/-- C5 counterexample: replaceNext on an empty handle with a valid new
node (address 1, empty link).  Both assertions of the source concern
only the new node and pass; the computation then reaches the read of
oldItem->nextListItem through the null old-item pointer.  The outcome is
a null dereference, not the assertion-style PrecondViolation the claim
states. -/
theorem C5_counterexample :
    replaceNext [(1, Node.mk (10 : Nat) none)] none (some 1)
      = Except.error CErr.nullDeref
    ∧ CErr.nullDeref ≠ CErr.assertFail :=
  ⟨rfl, by decide⟩

/-- C5 (amended): calling replaceNext on an empty handle passes the
new-node assertions and then dereferences the null old-item pointer
(modelled as a null-dereference failure, not a checked assertion); when
the handle is non-empty, holding old, and the new node x is live with an
empty link field, replaceNext puts x in old's position, transfers the
remainder of the chain onto x, clears old's link field, and returns
old. -/
theorem C5_replaceNext_behaviour (h : Heap V) (old x : Nat)
    (onode xnode : Node V) (hold : heapFind h old = some onode)
    (hx : heapFind h x = some xnode) (hxn : xnode.nextListItem = none) :
    (∀ (h' : Heap V) (y : Nat) (yn : Node V), heapFind h' y = some yn →
        yn.nextListItem = none →
        replaceNext h' none (some y) = Except.error CErr.nullDeref)
    ∧ ∃ h2, replaceNext h (some old) (some x)
          = Except.ok (h2, some x, some old)
        ∧ heapFind h2 x = some (Node.mk xnode.value onode.nextListItem)
        ∧ heapFind h2 old = some (Node.mk onode.value none)
        ∧ ∀ b, b ≠ x → b ≠ old → heapFind h2 b = heapFind h b := by
  constructor
  · intro h' y yn hfy hyn
    simp only [replaceNext, hfy, hyn, jassert, Option.isSome_some,
      if_true, decide_True]
    rfl
  · refine ⟨setNext (setNext h x onode.nextListItem) old none, ?_, ?_, ?_, ?_⟩
    · simp only [replaceNext, hx, hxn, hold, jassert, Option.isSome_some,
        if_true, decide_True]
      rfl
    · by_cases hxo : x = old
      · subst hxo
        have hno : onode = xnode := by
          rw [hold] at hx; exact Option.some.inj hx
        subst hno
        have h1 : heapFind (setNext h x onode.nextListItem) x
            = some (Node.mk onode.value onode.nextListItem) :=
          heapFind_setNext_self h x _ _ hx
        have h2 := heapFind_setNext_self
          (setNext h x onode.nextListItem) x none _ h1
        rw [h2, hxn]
      · have h1 : heapFind (setNext h x onode.nextListItem) x
            = some (Node.mk xnode.value onode.nextListItem) :=
          heapFind_setNext_self h x _ _ hx
        rw [heapFind_setNext_ne _ _ _ _ hxo, h1]
    · by_cases hxo : x = old
      · subst hxo
        have hno : onode = xnode := by
          rw [hold] at hx; exact Option.some.inj hx
        subst hno
        have h1 : heapFind (setNext h x onode.nextListItem) x
            = some (Node.mk onode.value onode.nextListItem) :=
          heapFind_setNext_self h x _ _ hx
        exact heapFind_setNext_self _ x none _ h1
      · have h1 : heapFind (setNext h x onode.nextListItem) old
            = some onode := by
          rw [heapFind_setNext_ne _ _ _ _ (Ne.symm hxo)]; exact hold
        exact heapFind_setNext_self _ old none _ h1
    · intro b hbx hbo
      rw [heapFind_setNext_ne _ _ _ _ hbo, heapFind_setNext_ne _ _ _ _ hbx]

/-- C5 witness: the amended behaviour evaluated on the concrete chain
1 -> 2 with old = 1 and new node 3. -/
theorem C5_witness :
    (∀ (h' : Heap Nat) (y : Nat) (yn : Node Nat), heapFind h' y = some yn →
        yn.nextListItem = none →
        replaceNext h' none (some y) = Except.error CErr.nullDeref)
    ∧ ∃ h2, replaceNext [(1, Node.mk (10 : Nat) (some 2)),
          (2, Node.mk 20 none), (3, Node.mk 30 none)] (some 1) (some 3)
          = Except.ok (h2, some 3, some 1)
        ∧ heapFind h2 3 = some (Node.mk 30 (some 2))
        ∧ heapFind h2 1 = some (Node.mk 10 none)
        ∧ ∀ b, b ≠ 3 → b ≠ 1 → heapFind h2 b
            = heapFind [(1, Node.mk (10 : Nat) (some 2)),
                (2, Node.mk 20 none), (3, Node.mk 30 none)] b :=
  C5_replaceNext_behaviour _ 1 3 (Node.mk 10 (some 2)) (Node.mk 30 none)
    rfl rfl rfl

/-- C6: an Appender is only constructible over a slot that references no
node (otherwise the construction assertion fails); built on the terminal
slot of an n-node chain and fed k fresh nodes with empty link fields, it
produces exactly the state of k sequential append() calls made through
that same starting slot, and the resulting chain is the original l
followed by the appended nodes in order, of length n + k. -/
theorem C6_appender_correct (h : Heap V) (p : Option Nat)
    (l ks : List Nat) (hc : isChainB h p l = true)
    (hnd : (h.map Prod.fst).Nodup) (hks : ks.Nodup)
    (hfresh : ∀ x ∈ ks, x ∉ l ∧ isChainB h (some x) [x] = true) :
    (∀ (h' : Heap V) (p' : Option Nat) (s : Slot) (a : Nat),
        slotGet h' p' s = some a →
        appenderInit h' p' s = Except.error CErr.assertFail)
    ∧ appenderInit h p (tailSlot Slot.head l)
        = Except.ok (tailSlot Slot.head l)
    ∧ (appenderAppendAll h p (tailSlot Slot.head l) ks).1
        = appendAll h p (tailSlot Slot.head l) ks
    ∧ isChain (appenderAppendAll h p (tailSlot Slot.head l) ks).1.1
        (appenderAppendAll h p (tailSlot Slot.head l) ks).1.2 (l ++ ks)
    ∧ size (appenderAppendAll h p (tailSlot Slot.head l) ks).1.1
        (appenderAppendAll h p (tailSlot Slot.head l) ks).1.2
        = l.length + ks.length := by
  have hch := isChain_of_isChainB hc
  have hfresh' : ∀ x ∈ ks, x ∉ l ++ ([] : List Nat)
      ∧ isChain h (some x) [x] := by
    intro x hxk
    exact ⟨by simpa using (hfresh x hxk).1,
      isChain_of_isChainB (hfresh x hxk).2⟩
  have hl := appenderLoop ks [] h p l (by simpa using hch) hnd hks hfresh'
  simp only [List.append_nil] at hl
  refine ⟨?_, ?_, hl.1, hl.2.1, ?_⟩
  · intro h' p' s a hs
    simp [appenderInit, hs, jassert]
  · simp [appenderInit, slotGet_tail hch, jassert]
  · rw [size_chain hl.2.1, List.length_append]

/-- C6 witness: the chain [1] with appended fresh nodes 2 and 3. -/
theorem C6_witness :
    (∀ (h' : Heap Nat) (p' : Option Nat) (s : Slot) (a : Nat),
        slotGet h' p' s = some a →
        appenderInit h' p' s = Except.error CErr.assertFail)
    ∧ appenderInit [(1, Node.mk (5 : Nat) none), (2, Node.mk 6 none),
        (3, Node.mk 7 none)] (some 1) (tailSlot Slot.head [1])
        = Except.ok (tailSlot Slot.head [1])
    ∧ (appenderAppendAll [(1, Node.mk (5 : Nat) none), (2, Node.mk 6 none),
        (3, Node.mk 7 none)] (some 1) (tailSlot Slot.head [1]) [2, 3]).1
        = appendAll [(1, Node.mk (5 : Nat) none), (2, Node.mk 6 none),
            (3, Node.mk 7 none)] (some 1) (tailSlot Slot.head [1]) [2, 3]
    ∧ isChain (appenderAppendAll [(1, Node.mk (5 : Nat) none),
        (2, Node.mk 6 none), (3, Node.mk 7 none)] (some 1)
          (tailSlot Slot.head [1]) [2, 3]).1.1
        (appenderAppendAll [(1, Node.mk (5 : Nat) none),
          (2, Node.mk 6 none), (3, Node.mk 7 none)] (some 1)
          (tailSlot Slot.head [1]) [2, 3]).1.2 ([1] ++ [2, 3])
    ∧ size (appenderAppendAll [(1, Node.mk (5 : Nat) none),
        (2, Node.mk 6 none), (3, Node.mk 7 none)] (some 1)
          (tailSlot Slot.head [1]) [2, 3]).1.1
        (appenderAppendAll [(1, Node.mk (5 : Nat) none),
          (2, Node.mk 6 none), (3, Node.mk 7 none)] (some 1)
          (tailSlot Slot.head [1]) [2, 3]).1.2
        = [1].length + [2, 3].length :=
  C6_appender_correct _ _ [1] [2, 3] (by decide) (by decide) (by decide)
    (by decide)

/-- C7: operator[] clamps to the terminal empty slot for every index at
or beyond the chain length (in particular index 5 on an empty handle
yields the terminal slot itself), and for 0 <= index < length it returns
the link slot at that 0-based position. -/
theorem C7_opIndex_clamps (h : Heap V) (p : Option Nat) (l : List Nat)
    (hc : isChainB h p l = true) (index : Int) :
    ((l.length : Int) ≤ index →
        opIndex h Slot.head p index = tailSlot Slot.head l)
    ∧ (0 ≤ index → index < l.length →
        opIndex h Slot.head p index = slotAt Slot.head l index.toNat) := by
  have hch := isChain_of_isChainB hc
  have hgo := opIndexGo_chain hch
  constructor
  · intro hge
    have hmin : min index.toNat l.length = l.length := by omega
    calc opIndex h Slot.head p index
        = opIndexGo h index.toNat Slot.head p := rfl
      _ = slotAt Slot.head l (min index.toNat l.length) :=
            hgo index.toNat Slot.head
      _ = tailSlot Slot.head l := by rw [hmin, slotAt_length]
  · intro h0 hlt
    have hmin : min index.toNat l.length = index.toNat := by omega
    calc opIndex h Slot.head p index
        = opIndexGo h index.toNat Slot.head p := rfl
      _ = slotAt Slot.head l (min index.toNat l.length) :=
            hgo index.toNat Slot.head
      _ = slotAt Slot.head l index.toNat := by rw [hmin]

/-- C7 witness: the two-node chain [1,2], probed past the end (index 5)
and in range (index 1); also the empty-handle case at index 5. -/
theorem C7_witness :
    (opIndex ([(1, Node.mk (10 : Nat) (some 2)), (2, Node.mk 20 none)] :
        Heap Nat) Slot.head (some 1) 5 = tailSlot Slot.head [1, 2])
    ∧ (opIndex ([(1, Node.mk (10 : Nat) (some 2)), (2, Node.mk 20 none)] :
        Heap Nat) Slot.head (some 1) 1 = slotAt Slot.head [1, 2]
          (1 : Int).toNat)
    ∧ (opIndex ([] : Heap Nat) Slot.head none 5
        = tailSlot Slot.head ([] : List Nat)) :=
  ⟨(C7_opIndex_clamps _ _ [1, 2] (by decide) 5).1 (by decide),
   (C7_opIndex_clamps _ _ [1, 2] (by decide) 1).2 (by decide) (by decide),
   (C7_opIndex_clamps ([] : Heap Nat) none [] (by decide) 5).1 (by decide)⟩

/-- C8: on an empty handle every read-only query returns an empty or
zero result and no error: size is 0, get is empty, and contains is false
for every node. -/
theorem C8_empty_handle_queries (h : Heap V) (target : Nat) :
    size h none = 0 ∧ get none = none ∧ contains h none target = false :=
  ⟨rfl, rfl, rfl⟩

/-- C9: append (and Appender::append) impose no precondition on the new
node's link field: appending a node x that already carries a chain m
links the whole sub-chain at the terminal slot, with no assertion and no
failure mode, so the resulting size is the old size plus the size of the
chain starting at x; Appender::append at the terminal slot produces the
same state. -/
theorem C9_append_links_subchain (h : Heap V) (p : Option Nat) (x : Nat)
    (l m : List Nat) (hl : isChainB h p l = true)
    (hm : isChainB h (some x) m = true) (hdisj : ∀ b ∈ l, b ∉ m) :
    isChain (append h p x).1 (append h p x).2 (l ++ m)
    ∧ size (append h p x).1 (append h p x).2
        = size h p + size h (some x)
    ∧ appenderAppend h p (tailSlot Slot.head l) x
        = (append h p x, Slot.field x) := by
  have hcl := isChain_of_isChainB hl
  have hcm := isChain_of_isChainB hm
  have happ : append h p x = slotSet h p (tailSlot Slot.head l) (some x) := by
    rw [append, getLast_chain hcl]
  have hres := isChain_appendChain hcl hcm hdisj
  rw [happ]
  refine ⟨hres, ?_, rfl⟩
  rw [size_chain hres, size_chain hcl, size_chain hcm, List.length_append]

/-- C9 witness: destination chain [1], appended node 2 carrying the
sub-chain [2,3]. -/
theorem C9_witness :
    isChain (append [(1, Node.mk (10 : Nat) none), (2, Node.mk 20 (some 3)),
        (3, Node.mk 30 none)] (some 1) 2).1
      (append [(1, Node.mk (10 : Nat) none), (2, Node.mk 20 (some 3)),
        (3, Node.mk 30 none)] (some 1) 2).2 ([1] ++ [2, 3])
    ∧ size (append [(1, Node.mk (10 : Nat) none), (2, Node.mk 20 (some 3)),
        (3, Node.mk 30 none)] (some 1) 2).1
      (append [(1, Node.mk (10 : Nat) none), (2, Node.mk 20 (some 3)),
        (3, Node.mk 30 none)] (some 1) 2).2
        = size [(1, Node.mk (10 : Nat) none), (2, Node.mk 20 (some 3)),
            (3, Node.mk 30 none)] (some 1)
          + size [(1, Node.mk (10 : Nat) none), (2, Node.mk 20 (some 3)),
              (3, Node.mk 30 none)] (some 2)
    ∧ appenderAppend [(1, Node.mk (10 : Nat) none),
        (2, Node.mk 20 (some 3)), (3, Node.mk 30 none)] (some 1)
        (tailSlot Slot.head [1]) 2
        = (append [(1, Node.mk (10 : Nat) none), (2, Node.mk 20 (some 3)),
            (3, Node.mk 30 none)] (some 1) 2, Slot.field 2) :=
  C9_append_links_subchain _ _ 2 [1] [2, 3] (by decide) (by decide)
    (by decide)

/-- C10 counterexample: at index -2147483648 (the most negative 32-bit
int) the pre-decrement of the loop counter overflows, wrapping to
2147483647, so operator[] traverses the two-node chain 1 -> 2 all the
way to its terminal slot instead of returning the handle's own slot, and
its result differs from the index-0 result. -/
theorem C10_counterexample :
    opIndex32 ([(1, Node.mk (10 : Nat) (some 2)), (2, Node.mk 20 none)] :
        Heap Nat) Slot.head (some 1) (-2147483648) = Slot.field 2
    ∧ opIndex32 ([(1, Node.mk (10 : Nat) (some 2)), (2, Node.mk 20 none)] :
        Heap Nat) Slot.head (some 1) 0 = Slot.head
    ∧ Slot.field 2 ≠ Slot.head :=
  ⟨by decide, by decide, by decide⟩

/-- C10 (amended): for every index that is at most 0 but strictly above
the most negative 32-bit int, the pre-decrement keeps the loop counter
negative, so operator[] returns the handle's own slot — the very result
of index 0 — performing no traversal and signalling no error; at the
most negative int itself the pre-decrement overflows (undefined
behaviour, wrapping on two's-complement targets) and the operator
traverses to the clamped terminal slot instead. -/
theorem C10_opIndex32_nonpositive (h : Heap V) (s : Slot)
    (p : Option Nat) (index : Int) (hle : index ≤ 0)
    (hgt : -2147483648 < index) :
    opIndex32 h s p index = s
    ∧ opIndex32 h s p index = opIndex32 h s p 0 := by
  have hw : wrap32 (index - 1) = index - 1 := by
    unfold wrap32
    rw [Int.emod_eq_of_lt (by omega) (by omega)]
    ring
  have hneg : ¬ 0 ≤ wrap32 (index - 1) := by rw [hw]; omega
  have hneg0 : ¬ 0 ≤ wrap32 ((0 : Int) - 1) := by decide
  refine ⟨opIndex32Go_neg h h.length s p index hneg, ?_⟩
  rw [show opIndex32 h s p index
      = opIndex32Go h (h.length + 1) s p index from rfl,
    opIndex32Go_neg h h.length s p index hneg,
    show opIndex32 h s p 0 = opIndex32Go h (h.length + 1) s p 0 from rfl,
    opIndex32Go_neg h h.length s p 0 hneg0]

/-- C10 witness: index -3 on a two-node chain. -/
theorem C10_witness :
    opIndex32 ([(1, Node.mk (10 : Nat) (some 2)), (2, Node.mk 20 none)] :
        Heap Nat) Slot.head (some 1) (-3) = Slot.head
    ∧ opIndex32 ([(1, Node.mk (10 : Nat) (some 2)), (2, Node.mk 20 none)] :
        Heap Nat) Slot.head (some 1) (-3)
      = opIndex32 ([(1, Node.mk (10 : Nat) (some 2)),
          (2, Node.mk 20 none)] : Heap Nat) Slot.head (some 1) 0 :=
  C10_opIndex32_nonpositive _ Slot.head (some 1) (-3) (by decide)
    (by decide)

end LinkedList
